import Mathlib

/-!
Verification of `make.py`, an RPM build-orchestration script.

Strings are modelled as `List Char`.  Python string primitives used by the
script (`str.replace`, `str.split`, `str.split('\n')`, `str.strip`,
`str.rstrip`, slicing, `textwrap.dedent`) are given faithful executable
models below.  External processes (git, rpm, docker, the filesystem) are
modelled by an environment record carrying their observable results.
-/

namespace MakeRpm

/-- Python whitespace set used by `str.split()` / `str.strip()` / `str.rstrip()`. -/
def isPyWs (c : Char) : Bool :=
  c = ' ' || c = '\t' || c = '\n' || c = '\r' || c = '\x0b' || c = '\x0c'

/-- The `[ \t]` class used by `textwrap.dedent`. -/
def isBlankWs (c : Char) : Bool := c = ' ' || c = '\t'

/-- `s` contains no newline character. -/
def noNl (s : List Char) : Bool := s.all (fun c => !(c = '\n'))

/-- `s` contains no at-sign. -/
def atFree (s : List Char) : Bool := s.all (fun c => !(c = '@'))

/-- Whether the first list is an initial segment of the second. -/
def isPre : List Char → List Char → Bool
  | [], _ => true
  | _ :: _, [] => false
  | a :: as, b :: bs => a = b && isPre as bs

/-- Whether `pat` occurs as a contiguous segment of `s`. -/
def hasOcc (pat : List Char) : List Char → Bool
  | [] => isPre pat []
  | c :: cs => isPre pat (c :: cs) || hasOcc pat cs

/-- Python `str.split('\n')`: the empty string yields one empty field. -/
def splitOnNl : List Char → List (List Char)
  | [] => [[]]
  | c :: cs =>
    if c = '\n' then [] :: splitOnNl cs
    else
      match splitOnNl cs with
      | t :: ts => (c :: t) :: ts
      | [] => [[c]]

/-- Join with newlines; inverse direction of `splitOnNl`. -/
def joinNl : List (List Char) → List Char
  | [] => []
  | [l] => l
  | l :: ls => l ++ '\n' :: joinNl ls

/-- Helper for `splitWs`: `acc` is the current word, reversed. -/
def splitWsAux : List Char → List Char → List (List Char)
  | acc, [] => if acc.isEmpty then [] else [acc.reverse]
  | acc, c :: cs =>
    if isPyWs c then
      if acc.isEmpty then splitWsAux [] cs else acc.reverse :: splitWsAux [] cs
    else splitWsAux (c :: acc) cs

/-- Python `str.split()` with no argument: split on whitespace runs, dropping
empty fields. -/
def splitWs (s : List Char) : List (List Char) := splitWsAux [] s

/-- Python `str.lstrip()`. -/
def pyLStrip (s : List Char) : List Char := s.dropWhile isPyWs

/-- Python `str.rstrip()`. -/
def pyRStrip (s : List Char) : List Char := (s.reverse.dropWhile isPyWs).reverse

/-- Python `str.strip()`. -/
def pyStrip (s : List Char) : List Char := pyRStrip (pyLStrip s)

/-- Fueled worker for `replaceAll`; fuel `≥` the length of the list makes it
total and keeps the recursion structural (so the kernel can evaluate it). -/
def replaceAllAux (pat rep : List Char) : Nat → List Char → List Char
  | _, [] => []
  | 0, s => s
  | fuel + 1, c :: cs =>
    if isPre pat (c :: cs) && !pat.isEmpty then
      rep ++ replaceAllAux pat rep fuel ((c :: cs).drop pat.length)
    else
      c :: replaceAllAux pat rep fuel cs

/-- Python `s.replace(pat, rep)` for nonempty `pat`: left-to-right,
non-overlapping, the replacement text is not rescanned. -/
def replaceAll (pat rep s : List Char) : List Char :=
  replaceAllAux pat rep s.length s

example : "ab".data = ['a', 'b'] := rfl
example : replaceAll "b".data "cc".data "abab".data = "accacc".data := rfl
example : splitWs "  a  bc ".data = ["a".data, "bc".data] := rfl
example : splitOnNl "a\nb\n".data = ["a".data, "b".data, []] := rfl
example : pyStrip "  a b\n".data = "a b".data := rfl

/-! ## `textwrap.dedent` -/

/-- A line made of at least one blank and nothing else (`^[ \t]+$`). -/
def wsOnlyLine (l : List Char) : Bool := !l.isEmpty && l.all isBlankWs

/-- `textwrap.dedent` first blanks out whitespace-only lines. -/
def normLines (ls : List (List Char)) : List (List Char) :=
  ls.map (fun l => if wsOnlyLine l then [] else l)

/-- Leading `[ \t]*` of each line that has a non-blank character. -/
def lineIndents (ls : List (List Char)) : List (List Char) :=
  (ls.filter (fun l => !(l.dropWhile isBlankWs).isEmpty)).map
    (fun l => l.takeWhile isBlankWs)

/-- Longest common initial segment of two lists. -/
def lcp : List Char → List Char → List Char
  | a :: as, b :: bs => if a = b then a :: lcp as bs else []
  | _, _ => []

/-- The common margin `textwrap.dedent` computes. -/
def marginOf (ls : List (List Char)) : List Char :=
  match lineIndents ls with
  | [] => []
  | i :: is => is.foldl lcp i

/-- Remove the margin from a line that begins with it. -/
def stripMargin (m l : List Char) : List Char :=
  if isPre m l then l.drop m.length else l

/-- `textwrap.dedent`: blank out whitespace-only lines, compute the common
leading-blank margin of the remaining lines, strip it from every line that
begins with it. -/
def dedent (t : List Char) : List Char :=
  joinNl ((normLines (splitOnNl t)).map
    (stripMargin (marginOf (normLines (splitOnNl t)))))

example :
    dedent "    a\n      b\n   \n    ".data = "a\n  b\n\n".data := rfl

/-! ## The script's data model

`Args` is the record produced by `_get_args` (argparse), minus the derived
`name` attribute, which `_prepare_spec_file` fills in.  `Option` fields have
`default=None`; a missing flag is `none`, and Python truthiness treats both
`None` and the empty string as false.

`Env` carries the observable results of the external processes and the
filesystem reads the script performs:
  - `specText`: result of reading the file at `args.spec`;
  - `today`: `datetime.datetime.now().strftime('%a %b %d %Y')`;
  - `rpmChangelog`: stdout of `rpm -q --changelog <old_rpm>` (error when
    that command exits non-zero, `check=True` raises);
  - `gitDescribe`: stdout of `git describe --abbrev=0 --tags` (error when it
    exits non-zero, e.g. when no tag exists);
  - `tracked`, `gitArchiveOk`: `git archive --format=tar --prefix=<p> HEAD`
    emits the tracked paths each prefixed with `<p>` when it succeeds —
    this is the archive command's contract, the script only chooses `<p>`;
  - `patchExists`: whether `shutil.copy2` finds each patch file;
  - `dockerOk`, `nativeOk`: exit status of the `docker run` / `rpmbuild`
    invocations. -/

structure Args where
  spec : List Char
  patch : List (List Char)
  docker_image : List (List Char)
  native : Bool
  rpmbuild : List Char
  version : List Char
  release : List Char
  message : Option (List Char)
  old_rpm : Option (List Char)

structure Env where
  specText : Except Unit (List Char)
  today : List Char
  rpmChangelog : Except Unit (List Char)
  gitDescribe : Except Unit (List Char)
  tracked : List (List Char)
  gitArchiveOk : Bool
  patchExists : List Char → Bool
  dockerOk : List Char → Bool
  nativeOk : Bool

/-- Python truthiness of an optional string: `None` and `''` are falsy. -/
def truthy : Option (List Char) → Bool
  | none => false
  | some s => !s.isEmpty

/-- The ways `_prepare_rpmbuild` and its callees can raise. -/
inductive PrepErr where
  | readFail      -- `open(args.spec)` failed
  | idxError      -- `line.split()[1]` IndexError
  | attrError     -- `args.name` never assigned (no `Name:` line matched)
  | rpmQueryFail  -- `rpm -q --changelog` exited non-zero
  | patchMissing  -- `shutil.copy2` source missing
  | archiveFail   -- `git archive` exited non-zero
  | dirFail       -- `os.makedirs` failed
deriving DecidableEq

/-- The constants at the top of `make.py`. -/
def PACKAGER : List Char :=
  "Norihiro Kamae <fedora-obs-studio-plugins@nagater.net>".data

def VTOK : List Char := "@VERSION@".data
def RTOK : List Char := "@RELEASE@".data
def NAME_MARK : List Char := "Name:".data

/-- Lines 32-33: the two placeholder substitutions, version first. -/
def substitute (t v r : List Char) : List Char :=
  replaceAll RTOK r (replaceAll VTOK v t)

/-- Lines 35-37: scan every line; on each line whose first five characters
are `Name:`, assign `args.name` to `line.split()[1]` (IndexError when that
token does not exist).  The accumulator is the current value of the `name`
attribute (`none` = not yet assigned). -/
def scanNameLines : Option (List Char) → List (List Char) →
    Except PrepErr (Option (List Char))
  | acc, [] => .ok acc
  | acc, l :: ls =>
    if l.take 5 = NAME_MARK then
      match (splitWs l)[1]? with
      | some tok => scanNameLines (some tok) ls
      | none => .error .idxError
    else scanNameLines acc ls

/-- Lines 39-44: choose the changelog entry text. -/
def selectMsg (message old_rpm : Option (List Char)) (version : List Char) :
    List Char :=
  if truthy message then message.getD []
  else if truthy old_rpm then "Update to ".data ++ version
  else "Package using script.".data

def sp12 : List Char := "            ".data
def sp4 : List Char := "    ".data

/-- Lines 47-51: the f-string handed to `textwrap.dedent` (the backslash
eats the first newline; the body lines carry twelve spaces of indentation
and the closing quotes four). -/
def rawStanza (d v r m : List Char) : List Char :=
  sp12 ++ "%changelog".data ++
    '\n' :: (sp12 ++ "* ".data ++ d ++ ' ' :: PACKAGER ++ " - ".data ++
      v ++ '-' :: r) ++
    '\n' :: (sp12 ++ "- ".data ++ m) ++
    '\n' :: sp4

/-- What `_prepare_spec_file` leaves behind: the derived `args.name`, the
text written, and the path it is written to. -/
structure SpecResult where
  name : List Char
  text : List Char
  path : List Char
deriving DecidableEq

/-- `_prepare_spec_file` (lines 28-63).  Order of effects is the source
order: read, substitute, scan for `Name:`, choose the message, append the
dedented stanza, optionally query and append the old changelog, then build
the output path from `args.name` (AttributeError there when no line
matched) and stage the patch files. -/
def prepare_spec_file (env : Env) (a : Args) : Except PrepErr SpecResult :=
  match env.specText with
  | .error _ => .error .readFail
  | .ok t =>
    let s2 := substitute t a.version a.release
    match scanNameLines none (splitOnNl s2) with
    | .error e => .error e
    | .ok nameOpt =>
      let msg := selectMsg a.message a.old_rpm a.version
      let s3 := s2 ++ '\n' :: dedent (rawStanza env.today a.version a.release msg)
      match (if truthy a.old_rpm then
               match env.rpmChangelog with
               | .error _ => .error .rpmQueryFail
               | .ok cl => .ok (pyRStrip s3 ++ '\n' :: '\n' :: cl)
             else .ok s3 : Except PrepErr (List Char)) with
      | .error e => .error e
      | .ok txt =>
        match nameOpt with
        | none => .error .attrError
        | some nm =>
          if a.patch.all env.patchExists then
            .ok ⟨nm, txt, a.rpmbuild ++ "/SPECS/".data ++ nm ++ ".spec".data⟩
          else .error .patchMissing

/-- `_prepare_sources` (lines 65-73): run `git archive` with
`--prefix=<name>-<version>/`, compress, write the tarball.  Returns the
output path and the archived entry paths. -/
def prepare_sources (env : Env) (a : Args) (name : List Char) :
    Except PrepErr (List Char × List (List Char)) :=
  if env.gitArchiveOk then
    .ok (a.rpmbuild ++ "/SOURCES/".data ++ name ++ '-' :: a.version ++
           ".tar.bz2".data,
         env.tracked.map (fun p => (name ++ '-' :: a.version ++ ['/']) ++ p))
  else .error .archiveFail

/-- `os.makedirs(p, exist_ok=ok)` on a flat model of the directory set (the
script creates the parent before each child, so intermediate-directory
creation never has to be modelled separately). -/
def makedirs (fs : List (List Char)) (p : List Char) (exist_ok : Bool) :
    Except Unit (List (List Char)) :=
  if p ∈ fs then (if exist_ok then .ok fs else .error ()) else .ok (p :: fs)

/-- Lines 21-23: the three `os.makedirs(..., exist_ok=True)` calls. -/
def prepare_dirs (a : Args) (fs : List (List Char)) :
    Except Unit (List (List Char)) := do
  let f1 ← makedirs fs a.rpmbuild true
  let f2 ← makedirs f1 (a.rpmbuild ++ "/SPECS".data) true
  makedirs f2 (a.rpmbuild ++ "/SOURCES".data) true

/-- Everything `_prepare_rpmbuild` produces. -/
structure PrepOutcome where
  dirs : List (List Char)
  specRes : SpecResult
  tarPath : List Char
  entries : List (List Char)
deriving DecidableEq

/-- `_prepare_rpmbuild` (lines 20-26): directories, then the spec file,
then the source tarball. -/
def prepare_rpmbuild (env : Env) (a : Args) (fs : List (List Char)) :
    Except PrepErr PrepOutcome :=
  match prepare_dirs a fs with
  | .error _ => .error .dirFail
  | .ok fs1 =>
    match prepare_spec_file env a with
    | .error e => .error e
    | .ok sr =>
      match prepare_sources env a sr.name with
      | .error e => .error e
      | .ok (tp, es) => .ok ⟨fs1, sr, tp, es⟩

/-- `_default_version` (lines 16-18): `git describe` stdout, stripped
(twice, as in the source). -/
def default_version (git : Except Unit (List Char)) :
    Except Unit (List Char) :=
  match git with
  | .error e => .error e
  | .ok out => .ok (pyStrip (pyStrip out))

/-- Lines 120-121 of `_get_args`: `if not args.version: args.version =
_default_version()`. -/
def resolveVersion (explicitV : Option (List Char))
    (git : Except Unit (List Char)) : Except Unit (List Char) :=
  if truthy explicitV then .ok (explicitV.getD []) else default_version git

/-! ## Orchestration trace (`main`, lines 125-134) -/

/-- The externally visible steps `main` drives. -/
inductive Ev where
  | prep
  | docker (img : List Char)
  | native
deriving DecidableEq

/-- Whether a step succeeds, given the environment. -/
def stepOk (env : Env) (a : Args) : Ev → Bool
  | .prep => match prepare_rpmbuild env a [] with | .ok _ => true | .error _ => false
  | .docker img => env.dockerOk img
  | .native => env.nativeOk

/-- The step sequence `main` attempts: prepare, one docker build per
`--docker-image` value in order, then a native build if requested. -/
def stepsOf (a : Args) : List Ev :=
  Ev.prep :: a.docker_image.map Ev.docker ++
    (if a.native then [Ev.native] else [])

/-- Run steps in order; a failing step is executed (appears in the trace)
but aborts everything after it.  Returns the executed trace and whether the
whole run succeeded. -/
def runSeq (ok : Ev → Bool) : List Ev → List Ev × Bool
  | [] => ([], true)
  | s :: rest =>
    if ok s then ((runSeq ok rest).1.cons s, (runSeq ok rest).2)
    else ([s], false)

/-- `main`: the executed trace and exit success. -/
def mainRun (env : Env) (a : Args) : List Ev × Bool :=
  runSeq (stepOk env a) (stepsOf a)

/-! ## Utility lemmas about the string primitives -/

theorem isPre_append (x y : List Char) : isPre x (x ++ y) = true := by
  induction x with
  | nil => rfl
  | cons a as ih => simpa [isPre] using ih

theorem replaceAllAux_congr (pat rep : List Char) :
    ∀ (f1 f2 : Nat) (s : List Char), s.length ≤ f1 → s.length ≤ f2 →
      replaceAllAux pat rep f1 s = replaceAllAux pat rep f2 s := by
  intro f1
  induction f1 with
  | zero =>
    intro f2 s h1 _
    have hs : s = [] := List.eq_nil_of_length_eq_zero (Nat.le_zero.mp h1)
    subst hs
    cases f2 <;> rfl
  | succ f ih =>
    intro f2 s h1 h2
    cases s with
    | nil => cases f2 <;> rfl
    | cons c cs =>
      cases f2 with
      | zero => simp at h2
      | succ g =>
        have hl1 : cs.length ≤ f := by simpa using h1
        have hl2 : cs.length ≤ g := by simpa using h2
        simp only [replaceAllAux]
        by_cases hcond : (isPre pat (c :: cs) && !pat.isEmpty) = true
        · have hp : 1 ≤ pat.length := by
            cases pat with
            | nil => simp at hcond
            | cons _ _ => simp
          rw [if_pos hcond, if_pos hcond]
          congr 1
          apply ih
          · simp only [List.length_drop, List.length_cons]; omega
          · simp only [List.length_drop, List.length_cons]; omega
        · rw [if_neg hcond, if_neg hcond]
          exact congrArg (c :: ·) (ih g cs hl1 hl2)

theorem replaceAll_cons_pos {pat : List Char} (rep : List Char) {c : Char}
    {cs : List Char} (hp : pat ≠ []) (h : isPre pat (c :: cs) = true) :
    replaceAll pat rep (c :: cs) =
      rep ++ replaceAll pat rep ((c :: cs).drop pat.length) := by
  have hpe : pat.isEmpty = false := by
    cases pat with
    | nil => exact absurd rfl hp
    | cons _ _ => rfl
  have hp1 : 1 ≤ pat.length := by
    cases pat with
    | nil => exact absurd rfl hp
    | cons _ _ => simp
  show replaceAllAux pat rep (cs.length + 1) (c :: cs) = _
  simp only [replaceAllAux, h, hpe, Bool.not_false, Bool.and_true, if_true]
  congr 1
  apply replaceAllAux_congr
  · simp only [List.length_drop, List.length_cons]; omega
  · exact Nat.le_refl _

theorem replaceAll_cons_not_pre (pat rep : List Char) {c : Char}
    {cs : List Char} (h : isPre pat (c :: cs) = false) :
    replaceAll pat rep (c :: cs) = c :: replaceAll pat rep cs := by
  show replaceAllAux pat rep (cs.length + 1) (c :: cs) = _
  simp only [replaceAllAux, h, Bool.false_and, if_false]
  rfl

/-- Scanning a segment with no at-sign cannot start a match of a pattern
that begins with an at-sign. -/
theorem replaceAll_append_left {pt : List Char} (rep : List Char)
    {l : List Char} (hl : atFree l = true) (s : List Char) :
    replaceAll ('@' :: pt) rep (l ++ s) =
      l ++ replaceAll ('@' :: pt) rep s := by
  induction l with
  | nil => rfl
  | cons c cl ih =>
    simp only [atFree, List.all_cons, Bool.and_eq_true, Bool.not_eq_eq_eq_not,
      Bool.not_true, decide_eq_false_iff_not] at hl
    have hc : isPre ('@' :: pt) (c :: (cl ++ s)) = false := by
      simp only [isPre, Bool.and_eq_false_iff]
      left
      simpa using fun h => hl.1 h.symm
    rw [List.cons_append, replaceAll_cons_not_pre _ _ hc]
    exact congrArg (c :: ·) (ih (by simp [atFree, hl.2]))

/-- A match at the scan position is consumed whole. -/
theorem replaceAll_self_append {pat : List Char} (rep : List Char)
    (hp : pat ≠ []) (s : List Char) :
    replaceAll pat rep (pat ++ s) = rep ++ replaceAll pat rep s := by
  cases pat with
  | nil => exact absurd rfl hp
  | cons c cs =>
    rw [List.cons_append,
      replaceAll_cons_pos rep hp
        (by rw [← List.cons_append]; exact isPre_append _ _)]
    congr 2
    rw [← List.cons_append]
    exact List.drop_left (c :: cs) s

/-! ## Claim C2 and C9: changelog entry selection (lines 39-44) -/

/-- Claim C2 counterexample: with `--message ''` (the empty string is a
given string) and `--old-rpm` set, the entry is not the given string but
the `Update to <version>` fallback, because Python `if args.message:` is a
truthiness test and the empty string is falsy. -/
theorem c2_counterexample :
    selectMsg (some []) (some "/tmp/old.rpm".data) "2.0".data =
      "Update to 2.0".data ∧
    "Update to 2.0".data ≠ ([] : List Char) := by
  exact ⟨rfl, by decide⟩

/-- Claim C2 (amended): the changelog entry text is selected by this
three-way rule on non-empty (truthy) values: a non-empty `--message` string
wins regardless of `--old-rpm`; otherwise a non-empty `--old-rpm` yields
exactly `Update to <version>`; otherwise the entry is exactly
`Package using script.`. -/
theorem c2_message_selection (m o : Option (List Char)) (v : List Char) :
    (truthy m = true → selectMsg m o v = m.getD []) ∧
    (truthy m = false → truthy o = true →
      selectMsg m o v = "Update to ".data ++ v) ∧
    (truthy m = false → truthy o = false →
      selectMsg m o v = "Package using script.".data) := by
  refine ⟨fun h1 => ?_, fun h1 h2 => ?_, fun h1 h2 => ?_⟩
  · simp [selectMsg, h1]
  · simp [selectMsg, h1, h2]
  · simp [selectMsg, h1, h2]

/-- Witness for C2: all three branches at concrete flag values. -/
theorem c2_witness :
    selectMsg (some "Fix bug".data) (some "o.rpm".data) "1".data =
      "Fix bug".data ∧
    selectMsg none (some "o.rpm".data) "1".data = "Update to 1".data ∧
    selectMsg none none "1".data = "Package using script.".data := by
  refine ⟨?_, ?_, ?_⟩
  · exact (c2_message_selection (some "Fix bug".data) (some "o.rpm".data)
      "1".data).1 (by decide)
  · exact (c2_message_selection none (some "o.rpm".data) "1".data).2.1
      (by decide) (by decide)
  · exact (c2_message_selection none none "1".data).2.2 (by decide) (by decide)

/-- Claim C9: supplying `--message` with the empty string behaves exactly
as if no message were given: the entry falls back to `Update to <version>`
when `--old-rpm` is truthy and to `Package using script.` otherwise. -/
theorem c9_empty_message_fallback (o : Option (List Char)) (v : List Char) :
    selectMsg (some []) o v = selectMsg none o v ∧
    (truthy o = true → selectMsg (some []) o v = "Update to ".data ++ v) ∧
    (truthy o = false →
      selectMsg (some []) o v = "Package using script.".data) := by
  have hnil : truthy (some ([] : List Char)) = false := rfl
  refine ⟨rfl, fun h => ?_, fun h => ?_⟩ <;> simp [selectMsg, hnil, h]

/-- Witness for C9 at concrete inputs. -/
theorem c9_witness :
    selectMsg (some []) (some "old.rpm".data) "3.1".data =
      "Update to 3.1".data ∧
    selectMsg (some []) none "3.1".data = "Package using script.".data :=
  ⟨(c9_empty_message_fallback (some "old.rpm".data) "3.1".data).2.1
      (by decide),
   (c9_empty_message_fallback none "3.1".data).2.2 (by decide)⟩

/-! ## Claim C8: idempotent build-root creation (lines 21-23) -/

/-- One `exist_ok` mkdir on the directory-set model. -/
def mk1 (fs : List (List Char)) (p : List Char) : List (List Char) :=
  if p ∈ fs then fs else p :: fs

theorem makedirs_exist_ok (fs : List (List Char)) (p : List Char) :
    makedirs fs p true = .ok (mk1 fs p) := by
  unfold makedirs mk1
  split <;> simp

theorem mem_mk1 {fs : List (List Char)} {p q : List Char} :
    q ∈ mk1 fs p ↔ q ∈ fs ∨ q = p := by
  unfold mk1
  by_cases h : p ∈ fs
  · rw [if_pos h]
    exact ⟨Or.inl, fun hq => hq.elim id (fun e => e ▸ h)⟩
  · rw [if_neg h]
    simp [or_comm]

theorem mk1_of_mem {fs : List (List Char)} {p : List Char} (h : p ∈ fs) :
    mk1 fs p = fs := by simp [mk1, h]

theorem prepare_dirs_eq (a : Args) (fs : List (List Char)) :
    prepare_dirs a fs =
      .ok (mk1 (mk1 (mk1 fs a.rpmbuild) (a.rpmbuild ++ "/SPECS".data))
        (a.rpmbuild ++ "/SOURCES".data)) := by
  simp [prepare_dirs, makedirs_exist_ok, bind, Except.bind]

/-- Claim C8: creating the build root and its two subdirectories succeeds
whether or not each directory already exists (`exist_ok` semantics), and
running the preparation twice leaves exactly the directory tree of running
it once: the input tree plus the three directories. -/
theorem c8_dirs_idempotent (a : Args) (fs : List (List Char)) :
    ∃ fs1, prepare_dirs a fs = .ok fs1 ∧ prepare_dirs a fs1 = .ok fs1 ∧
      ∀ p, p ∈ fs1 ↔ p ∈ fs ∨ p = a.rpmbuild ∨
        p = a.rpmbuild ++ "/SPECS".data ∨
        p = a.rpmbuild ++ "/SOURCES".data := by
  refine ⟨_, prepare_dirs_eq a fs, ?_, ?_⟩
  · rw [prepare_dirs_eq]
    congr 1
    have h1 : a.rpmbuild ∈
        mk1 (mk1 (mk1 fs a.rpmbuild) (a.rpmbuild ++ "/SPECS".data))
          (a.rpmbuild ++ "/SOURCES".data) := by
      simp [mem_mk1]
    have h2 : a.rpmbuild ++ "/SPECS".data ∈
        mk1 (mk1 (mk1 fs a.rpmbuild) (a.rpmbuild ++ "/SPECS".data))
          (a.rpmbuild ++ "/SOURCES".data) := by
      simp [mem_mk1]
    rw [mk1_of_mem h1, mk1_of_mem h2]
    apply mk1_of_mem
    simp [mem_mk1]
  · intro p
    simp [mem_mk1, or_assoc]

/-! ## Claim C5: default version resolution (lines 16-18, 120-121) -/

theorem dropWhile_head_not {p : Char → Bool} {l t : List Char} {c : Char}
    (h : l.dropWhile p = c :: t) : p c = false := by
  induction l with
  | nil => simp at h
  | cons a l ih =>
    by_cases ha : p a
    · rw [List.dropWhile_cons_of_pos ha] at h
      exact ih h
    · rw [List.dropWhile_cons_of_neg ha] at h
      cases h
      simpa using ha

theorem dropWhile_of_head_not {p : Char → Bool} {l : List Char}
    (h : ∀ c t, l = c :: t → p c = false) : l.dropWhile p = l := by
  cases l with
  | nil => rfl
  | cons c t => exact List.dropWhile_cons_of_neg (by simp [h c t rfl])

theorem dropWhile_idem (p : Char → Bool) (l : List Char) :
    (l.dropWhile p).dropWhile p = l.dropWhile p :=
  dropWhile_of_head_not (fun _ _ h => dropWhile_head_not h)

/-- `str.strip()` is idempotent: stripping a stripped string changes
nothing. -/
theorem pyStrip_idem (s : List Char) : pyStrip (pyStrip s) = pyStrip s := by
  unfold pyStrip pyRStrip pyLStrip
  set u := (s.dropWhile isPyWs).reverse with hu
  set z := u.dropWhile isPyWs with hz
  have claim1 : z.reverse.dropWhile isPyWs = z.reverse := by
    apply dropWhile_of_head_not
    intro c t hct
    have h1 : z.getLast? = some c := by
      rw [← List.head?_reverse, hct]
      rfl
    have h2 : (s.dropWhile isPyWs).head? = some c := by
      have hzu : u.takeWhile isPyWs ++ z = u := List.takeWhile_append_dropWhile isPyWs u
      have hz0 : z ≠ [] := by
        intro hznil
        rw [hznil] at h1
        simp at h1
      have : u.getLast? = some c := by
        rw [← hzu, List.getLast?_append_of_ne_nil _ hz0]
        exact h1
      rw [hu] at this
      simpa using this
    cases hd : s.dropWhile isPyWs with
    | nil => rw [hd] at h2; simp at h2
    | cons d t2 =>
      rw [hd] at h2
      simp at h2
      exact h2 ▸ dropWhile_head_not hd
  rw [claim1, List.reverse_reverse, hz, dropWhile_idem]

/-- Claim C5: with no explicit `--version`, the resolved version is the
`git describe --abbrev=0 --tags` output trimmed of surrounding whitespace,
and version resolution propagates an error whenever that command exits
non-zero (in particular when no tag exists, where `git describe` fails). -/
theorem c5_default_version (git : Except Unit (List Char)) :
    (∀ out, git = .ok out → resolveVersion none git = .ok (pyStrip out)) ∧
    (git = .error () → resolveVersion none git = .error ()) := by
  constructor
  · intro out h
    subst h
    show default_version (.ok out) = _
    simp [default_version, pyStrip_idem]
  · intro h
    subst h
    rfl

/-- Witness for C5 at a concrete tag text and at a failing command. -/
theorem c5_witness :
    resolveVersion none (.ok " v1.2.3\n".data) = .ok "v1.2.3".data ∧
    resolveVersion none (.error ()) = .error () := by
  constructor
  · have h := (c5_default_version (.ok " v1.2.3\n".data)).1 " v1.2.3\n".data rfl
    rw [h]
    rfl
  · exact (c5_default_version (.error ())).2 rfl

/-! ## Claim C7: source archive step (lines 65-73) -/

/-- Claim C7: when `git archive` succeeds, the tarball is written to
`<buildroot>/SOURCES/<name>-<version>.tar.bz2` and every archived path is
prefixed by `<name>-<version>/`; when the archive command exits non-zero
the step fails, aborting preparation. -/
theorem c7_sources (env : Env) (a : Args) (nm : List Char) :
    (env.gitArchiveOk = true →
      ∀ es, prepare_sources env a nm = .ok es →
        es.1 = a.rpmbuild ++ "/SOURCES/".data ++ nm ++ '-' :: a.version ++
          ".tar.bz2".data ∧
        ∀ e ∈ es.2, isPre (nm ++ '-' :: a.version ++ ['/']) e = true) ∧
    (env.gitArchiveOk = false →
      prepare_sources env a nm = .error .archiveFail) := by
  constructor
  · intro hok es hes
    unfold prepare_sources at hes
    rw [if_pos hok] at hes
    cases hes
    refine ⟨rfl, ?_⟩
    intro e he
    simp only [List.mem_map] at he
    obtain ⟨p, _, rfl⟩ := he
    exact isPre_append _ _
  · intro hko
    unfold prepare_sources
    rw [if_neg (by simp [hko])]

/-- Witness for C7 at a concrete environment. -/
theorem c7_witness :
    (prepare_sources
      ⟨.ok [], [], .ok [], .ok [], ["src/a.c".data], true, fun _ => true,
        fun _ => true, true⟩
      ⟨[], [], [], false, "rb".data, "1.0".data, "1".data, none, none⟩
      "plug".data = .ok ("rb/SOURCES/plug-1.0.tar.bz2".data,
        ["plug-1.0/src/a.c".data]) ∧
      isPre "plug-1.0/".data "plug-1.0/src/a.c".data = true) ∧
    prepare_sources
      ⟨.ok [], [], .ok [], .ok [], ["src/a.c".data], false, fun _ => true,
        fun _ => true, true⟩
      ⟨[], [], [], false, "rb".data, "1.0".data, "1".data, none, none⟩
      "plug".data = .error .archiveFail := by
  refine ⟨⟨rfl, ?_⟩, ?_⟩
  · have h := (c7_sources
      ⟨.ok [], [], .ok [], .ok [], ["src/a.c".data], true, fun _ => true,
        fun _ => true, true⟩
      ⟨[], [], [], false, "rb".data, "1.0".data, "1".data, none, none⟩
      "plug".data).1 rfl _ rfl
    exact h.2 "plug-1.0/src/a.c".data (by simp)
  · exact (c7_sources
      ⟨.ok [], [], .ok [], .ok [], ["src/a.c".data], false, fun _ => true,
        fun _ => true, true⟩
      ⟨[], [], [], false, "rb".data, "1.0".data, "1".data, none, none⟩
      "plug".data).2 rfl

/-! ## Claim C4: orchestration order and fail-fast (lines 125-134) -/

theorem runSeq_all_ok {ok : Ev → Bool} :
    ∀ {L : List Ev}, (∀ s ∈ L, ok s = true) → runSeq ok L = (L, true) := by
  intro L
  induction L with
  | nil => intro _; rfl
  | cons s rest ih =>
    intro h
    have hs : ok s = true := h s (by simp)
    simp only [runSeq, hs, if_true, ih (fun t ht => h t (by simp [ht]))]

theorem runSeq_append_ok {ok : Ev → Bool} {L M : List Ev}
    (h : ∀ s ∈ L, ok s = true) :
    runSeq ok (L ++ M) = (L ++ (runSeq ok M).1, (runSeq ok M).2) := by
  induction L with
  | nil => simp
  | cons s rest ih =>
    have hs : ok s = true := h s (by simp)
    have ihh := ih (fun t ht => h t (by simp [ht]))
    simp only [List.cons_append, runSeq, hs, if_true, List.append_eq, ihh]

theorem runSeq_head_fail {ok : Ev → Bool} {s : Ev} {M : List Ev}
    (h : ok s = false) : runSeq ok (s :: M) = ([s], false) := by
  simp [runSeq, h]

theorem runSeq_fst_singleton (ok : Ev → Bool) (s : Ev) :
    (runSeq ok [s]).1 = [s] := by
  by_cases h : ok s = true
  · simp [runSeq, h]
  · simp [runSeq, Bool.eq_false_iff.mpr h]

/-- Claim C4: each requested container image is built exactly once, in the
order the `--docker-image` values were given, and all container builds
come before any native build step; a failing step (preparation or a
container build) aborts every remaining step. -/
theorem c4_orchestration (env : Env) (a : Args) :
    (stepOk env a Ev.prep = true →
      (∀ img ∈ a.docker_image, env.dockerOk img = true) →
      (mainRun env a).1 =
        Ev.prep :: a.docker_image.map Ev.docker ++
          (if a.native then [Ev.native] else [])) ∧
    (∀ pre img post, a.docker_image = pre ++ img :: post →
      stepOk env a Ev.prep = true →
      (∀ j ∈ pre, env.dockerOk j = true) →
      env.dockerOk img = false →
      (mainRun env a).1 =
        Ev.prep :: pre.map Ev.docker ++ [Ev.docker img]) ∧
    (stepOk env a Ev.prep = false → mainRun env a = ([Ev.prep], false)) := by
  refine ⟨fun hp hd => ?_, fun pre img post hsplit hp hpre hfail => ?_,
    fun hp => ?_⟩
  · show (runSeq (stepOk env a) (stepsOf a)).1 = _
    unfold stepsOf
    simp only [runSeq, hp, if_true, List.append_eq]
    have hall : ∀ s ∈ a.docker_image.map Ev.docker, stepOk env a s = true := by
      intro s hs
      obtain ⟨img, himg, rfl⟩ := List.mem_map.mp hs
      exact hd img himg
    rw [runSeq_append_ok hall]
    by_cases hn : a.native
    · simp [hn, runSeq_fst_singleton]
    · simp [hn, runSeq]
  · show (runSeq (stepOk env a) (stepsOf a)).1 = _
    unfold stepsOf
    rw [hsplit]
    simp only [runSeq, hp, if_true, List.map_append, List.map_cons,
      List.append_assoc, List.cons_append, List.append_eq]
    have hallpre : ∀ s ∈ pre.map Ev.docker, stepOk env a s = true := by
      intro s hs
      obtain ⟨j, hj, rfl⟩ := List.mem_map.mp hs
      exact hpre j hj
    rw [runSeq_append_ok hallpre,
      runSeq_head_fail (show stepOk env a (Ev.docker img) = false from hfail)]
  · show runSeq (stepOk env a) (stepsOf a) = _
    unfold stepsOf
    exact runSeq_head_fail hp

def envC4 : Env where
  specText := .ok "Name: plug\n@VERSION@ @RELEASE@\n".data
  today := "Mon Jan 01 2024".data
  rpmChangelog := .ok "* old".data
  gitDescribe := .ok "1.0".data
  tracked := ["a.c".data]
  gitArchiveOk := true
  patchExists := fun _ => true
  dockerOk := fun _ => true
  nativeOk := true

/-- Same environment, but the second container image fails to build. -/
def envC4fail : Env :=
  { envC4 with dockerOk := fun img => !(img = "img2".data) }

/-- Same environment, but reading the spec template fails, so the
preparation step fails. -/
def envC4prepFail : Env := { envC4 with specText := .error () }

def argsC4 : Args where
  spec := "plugin.spec".data
  patch := []
  docker_image := ["img1".data, "img2".data]
  native := true
  rpmbuild := "rb".data
  version := "1.0".data
  release := "1".data
  message := none
  old_rpm := none

/-- Witness for C4: the three branches at concrete runs — a clean run, a
run whose second container build fails, a run whose preparation fails. -/
theorem c4_witness :
    (mainRun envC4 argsC4).1 =
      [Ev.prep, Ev.docker "img1".data, Ev.docker "img2".data, Ev.native] ∧
    (mainRun envC4fail argsC4).1 =
      [Ev.prep, Ev.docker "img1".data, Ev.docker "img2".data] ∧
    mainRun envC4prepFail argsC4 = ([Ev.prep], false) := by
  refine ⟨?_, ?_, ?_⟩
  · have h := (c4_orchestration envC4 argsC4).1 (by decide) (by decide)
    exact h
  · have h := (c4_orchestration envC4fail argsC4).2.1 ["img1".data]
      "img2".data [] rfl (by decide) (by decide) (by decide)
    exact h
  · exact (c4_orchestration envC4prepFail argsC4).2.2 (by decide)

/-! ## Claims C1 and C10: the `Name:` line scan (lines 35-37) -/

/-- The line-matching test of line 36 (`line[0:5] == 'Name:'`). -/
def nameLine (l : List Char) : Bool := decide (l.take 5 = NAME_MARK)

/-- The name the loop of lines 35-37 leaves in `args.name`: the second
whitespace token of the LAST matching line (each matching line overwrites
the attribute). -/
def lastNameTok (ls : List (List Char)) : Option (List Char) :=
  match (ls.filter nameLine).getLast? with
  | none => none
  | some l => (splitWs l)[1]?

/-- Modelled from the spec text of C1 (the reading under test, not the
code): the second whitespace-delimited token of the FIRST line starting
with `Name:` in the PRE-substitution template. -/
def specNameOfTemplate (t : List Char) : Option (List Char) :=
  match (splitOnNl t).filter nameLine with
  | [] => none
  | l :: _ => (splitWs l)[1]?

theorem scanNameLines_ok (acc : Option (List Char))
    (ls : List (List Char))
    (h : ∀ l ∈ ls, l.take 5 = NAME_MARK → ((splitWs l)[1]?).isSome = true) :
    scanNameLines acc ls = .ok ((lastNameTok ls).orElse (fun _ => acc)) := by
  induction ls generalizing acc with
  | nil => rfl
  | cons l ls ih =>
    by_cases hm : l.take 5 = NAME_MARK
    · have hsome := h l (by simp) hm
      obtain ⟨tok, htok⟩ := Option.isSome_iff_exists.mp hsome
      have hstep : scanNameLines acc (l :: ls) = scanNameLines (some tok) ls := by
        simp only [scanNameLines, if_pos hm, htok]
      rw [hstep, ih (some tok) (fun x hx hmx => h x (by simp [hx]) hmx)]
      have hfl : (l :: ls).filter nameLine = l :: ls.filter nameLine :=
        List.filter_cons_of_pos (by simp [nameLine, hm])
      cases hF : ls.filter nameLine with
      | nil =>
        have h1 : lastNameTok (l :: ls) = some tok := by
          simp only [lastNameTok, hfl, hF]
          exact htok
        have h2 : lastNameTok ls = none := by
          simp [lastNameTok, hF]
        rw [h1, h2]
        rfl
      | cons f fs =>
        have h1 : lastNameTok (l :: ls) = lastNameTok ls := by
          simp only [lastNameTok, hfl, hF, List.getLast?_cons_cons]
        have hlast : ((f :: fs).getLast?).isSome = true := by
          simp
        obtain ⟨lastL, hlastL⟩ := Option.isSome_iff_exists.mp hlast
        have hmemF : lastL ∈ ls.filter nameLine := by
          rw [hF]
          exact List.mem_of_getLast?_eq_some hlastL
        have hmem := List.mem_filter.mp hmemF
        have h2 : lastNameTok ls = (splitWs lastL)[1]? := by
          simp only [lastNameTok, hF, hlastL]
        have h3 : ((splitWs lastL)[1]?).isSome = true :=
          h lastL (by simp [hmem.1]) (by simpa [nameLine] using hmem.2)
        obtain ⟨tk, htk⟩ := Option.isSome_iff_exists.mp h3
        rw [h1, h2, htk]
        rfl
    · have hstep : scanNameLines acc (l :: ls) = scanNameLines acc ls := by
        simp only [scanNameLines, if_neg hm]
      have hfl : (l :: ls).filter nameLine = ls.filter nameLine :=
        List.filter_cons_of_neg (by simp [nameLine, hm])
      rw [hstep, ih acc (fun x hx hmx => h x (by simp [hx]) hmx)]
      simp only [lastNameTok, hfl]

theorem scanNameLines_err (acc : Option (List Char))
    (ls : List (List Char))
    (h : ∃ l ∈ ls, l.take 5 = NAME_MARK ∧ (splitWs l)[1]? = none) :
    scanNameLines acc ls = .error .idxError := by
  induction ls generalizing acc with
  | nil => simp at h
  | cons l ls ih =>
    by_cases hm : l.take 5 = NAME_MARK
    · cases htok : (splitWs l)[1]? with
      | none => simp only [scanNameLines, if_pos hm, htok]
      | some tok =>
        have hstep : scanNameLines acc (l :: ls) = scanNameLines (some tok) ls := by
          simp only [scanNameLines, if_pos hm, htok]
        rw [hstep]
        apply ih
        obtain ⟨x, hx, hmx, hnx⟩ := h
        cases hx with
        | head =>
          rw [hnx] at htok
          cases htok
        | tail _ hx2 => exact ⟨x, hx2, hmx, hnx⟩
    · have hstep : scanNameLines acc (l :: ls) = scanNameLines acc ls := by
        simp only [scanNameLines, if_neg hm]
      rw [hstep]
      apply ih
      obtain ⟨x, hx, hmx, hnx⟩ := h
      cases hx with
      | head => exact absurd hmx hm
      | tail _ hx2 => exact ⟨x, hx2, hmx, hnx⟩

/-- Claim C10: if some line of the substituted spec text begins with
`Name:` but has no second whitespace-delimited token (`Name:` alone, or
`Name:foo` with no whitespace), spec preparation raises the out-of-range
indexing error from `line.split()[1]`, and the whole preparation aborts
with it — no named diagnostic is produced. -/
theorem c10_short_name_line (env : Env) (a : Args) (t : List Char)
    (hread : env.specText = .ok t)
    (h : ∃ l ∈ splitOnNl (substitute t a.version a.release),
      l.take 5 = NAME_MARK ∧ (splitWs l)[1]? = none) :
    prepare_spec_file env a = .error .idxError ∧
    prepare_rpmbuild env a [] = .error .idxError := by
  have hspec : prepare_spec_file env a = .error .idxError := by
    unfold prepare_spec_file
    rw [hread]
    simp only [scanNameLines_err none _ h]
  refine ⟨hspec, ?_⟩
  unfold prepare_rpmbuild
  rw [prepare_dirs_eq, hspec]

def envC10 : Env :=
  { envC4 with specText := .ok "Name:\nVersion: @VERSION@\n".data }

/-- Witness for C10: a template whose `Name:` line has no second token. -/
theorem c10_witness :
    prepare_spec_file envC10 argsC4 = .error .idxError ∧
    prepare_rpmbuild envC10 argsC4 [] = .error .idxError :=
  c10_short_name_line envC10 argsC4 "Name:\nVersion: @VERSION@\n".data rfl
    (by decide)

/-- The `Name:` line the code extracts: the template used for the C1
counterexample has two matching lines, and the second one contains the
version placeholder, so first differs from last and pre-substitution
differs from post-substitution. -/
def tC1 : List Char := "Name: alpha\nName: @VERSION@\n".data

def envC1 : Env := { envC4 with specText := .ok tC1 }

def argsC1 : Args := { argsC4 with version := "9.9".data }

/-- Claim C1 counterexample: the code extracts `9.9` (second token of the
LAST `Name:` line of the POST-substitution text), while the claim demands
the second token of the FIRST `Name:` line of the PRE-substitution text,
which is `alpha`. -/
theorem c1_counterexample :
    (prepare_spec_file envC1 argsC1).toOption.map SpecResult.name =
      some "9.9".data ∧
    specNameOfTemplate tC1 = some "alpha".data ∧
    some "9.9".data ≠ some "alpha".data := by
  exact ⟨rfl, rfl, by decide⟩

/-- Claim C1 (amended): the extracted package name equals the second
whitespace-delimited token of the LAST line starting with `Name:` in the
POST-substitution spec text, and that single name is used for the spec
file path and the tarball path (the build invocations reference the same
written `<name>.spec` path). -/
theorem c1_name_flow (env : Env) (a : Args) (t : List Char)
    (hread : env.specText = .ok t)
    (hold : truthy a.old_rpm = false)
    (hpatch : a.patch.all env.patchExists = true)
    (harch : env.gitArchiveOk = true)
    (htok : ∀ l ∈ splitOnNl (substitute t a.version a.release),
      l.take 5 = NAME_MARK → ((splitWs l)[1]?).isSome = true)
    (hex : ∃ l ∈ splitOnNl (substitute t a.version a.release),
      l.take 5 = NAME_MARK) :
    ∃ nm, lastNameTok (splitOnNl (substitute t a.version a.release)) = some nm ∧
      (prepare_rpmbuild env a []).toOption.map
        (fun o => (o.specRes.name, o.specRes.path, o.tarPath)) =
      some (nm, a.rpmbuild ++ "/SPECS/".data ++ nm ++ ".spec".data,
        a.rpmbuild ++ "/SOURCES/".data ++ nm ++ '-' :: a.version ++
          ".tar.bz2".data) := by
  set ls := splitOnNl (substitute t a.version a.release) with hls
  have hfil : ls.filter nameLine ≠ [] := by
    intro hnil
    obtain ⟨l, hl, hml⟩ := hex
    exact (List.filter_eq_nil_iff.mp hnil) l hl (by simp [nameLine, hml])
  obtain ⟨lastL, hlastL⟩ :=
    Option.isSome_iff_exists.mp (List.getLast?_isSome.mpr hfil)
  have hmem := List.mem_filter.mp (List.mem_of_getLast?_eq_some hlastL)
  have hsome : ((splitWs lastL)[1]?).isSome = true :=
    htok lastL hmem.1 (by simpa [nameLine] using hmem.2)
  obtain ⟨nm, hnm⟩ := Option.isSome_iff_exists.mp hsome
  have hlast : lastNameTok ls = some nm := by
    simp only [lastNameTok, hlastL, hnm]
  refine ⟨nm, hlast, ?_⟩
  have hscan : scanNameLines none ls = .ok (some nm) := by
    rw [scanNameLines_ok none ls htok, hlast]
    rfl
  have hspec : prepare_spec_file env a =
      .ok ⟨nm,
        substitute t a.version a.release ++
          '\n' :: dedent (rawStanza env.today a.version a.release
            (selectMsg a.message a.old_rpm a.version)),
        a.rpmbuild ++ "/SPECS/".data ++ nm ++ ".spec".data⟩ := by
    unfold prepare_spec_file
    rw [hread]
    simp only [← hls, hscan, hold, hpatch]
    simp
  unfold prepare_rpmbuild
  rw [prepare_dirs_eq, hspec]
  unfold prepare_sources
  simp [harch]
  exact ⟨_, rfl, rfl, rfl, rfl⟩

/-- Witness for C1 at the two-`Name:`-line template: the name `9.9` from
the last (substituted) line flows into both output paths. -/
theorem c1_witness :
    lastNameTok (splitOnNl (substitute tC1 "9.9".data "1".data)) =
      some "9.9".data ∧
    (prepare_rpmbuild envC1 argsC1 []).toOption.map
        (fun o => (o.specRes.name, o.specRes.path, o.tarPath)) =
      some ("9.9".data, "rb/SPECS/9.9.spec".data,
        "rb/SOURCES/9.9-9.9.tar.bz2".data) := by
  obtain ⟨nm, h1, h2⟩ := c1_name_flow envC1 argsC1 tC1 rfl (by decide)
    (by decide) (by decide) (by decide) (by decide)
  have hnm : nm = "9.9".data := by
    have : lastNameTok (splitOnNl (substitute tC1 "9.9".data "1".data)) =
        some "9.9".data := by decide
    rw [show argsC1.version = "9.9".data from rfl,
      show argsC1.release = "1".data from rfl] at h1
    rw [this] at h1
    cases h1
    rfl
  subst hnm
  exact ⟨by decide, h2⟩

/-! ## Claim C6: appending the previous package changelog (lines 53-56) -/

theorem splitOnNl_cons_head {c : Char} {y t : List Char}
    {ts : List (List Char)} (hc : ¬ c = '\n') (h : splitOnNl y = t :: ts) :
    splitOnNl (c :: y) = (c :: t) :: ts := by
  simp only [splitOnNl, if_neg hc, h]

theorem splitOnNl_append {x : List Char} (hx : noNl x = true)
    (y : List Char) :
    splitOnNl (x ++ '\n' :: y) = x :: splitOnNl y := by
  induction x with
  | nil => simp [splitOnNl]
  | cons c cs ih =>
    simp only [noNl, List.all_cons, Bool.and_eq_true, Bool.not_eq_eq_eq_not,
      Bool.not_true, decide_eq_false_iff_not] at hx
    rw [List.cons_append,
      splitOnNl_cons_head hx.1 (ih (by simp [noNl, hx.2]))]

theorem splitOnNl_noNl {x : List Char} (hx : noNl x = true) :
    splitOnNl x = [x] := by
  induction x with
  | nil => rfl
  | cons c cs ih =>
    simp only [noNl, List.all_cons, Bool.and_eq_true, Bool.not_eq_eq_eq_not,
      Bool.not_true, decide_eq_false_iff_not] at hx
    rw [splitOnNl_cons_head hx.1 (ih (by simp [noNl, hx.2]))]

theorem takeWhile_append_all {p : Char → Bool} {x : List Char}
    (hx : x.all p = true) (y : List Char) :
    (x ++ y).takeWhile p = x ++ y.takeWhile p := by
  induction x with
  | nil => rfl
  | cons c cs ih =>
    simp only [List.all_cons, Bool.and_eq_true] at hx
    simp only [List.cons_append, List.takeWhile_cons_of_pos hx.1, ih hx.2]

theorem dropWhile_append_all {p : Char → Bool} {x : List Char}
    (hx : x.all p = true) (y : List Char) :
    (x ++ y).dropWhile p = y.dropWhile p := by
  induction x with
  | nil => rfl
  | cons c cs ih =>
    simp only [List.all_cons, Bool.and_eq_true] at hx
    simp only [List.cons_append, List.dropWhile_cons_of_pos hx.1, ih hx.2]

theorem lcp_self (x : List Char) : lcp x x = x := by
  induction x with
  | nil => rfl
  | cons c cs ih => simp [lcp, ih]

theorem wsOnlyLine_false_of_mem {l : List Char} {c : Char} (hc : c ∈ l)
    (h : isBlankWs c = false) : wsOnlyLine l = false := by
  have hall : l.all isBlankWs = false := by
    refine Bool.eq_false_iff.mpr (fun hall => ?_)
    have hmem := List.all_eq_true.mp hall c hc
    rw [h] at hmem
    cases hmem
  simp [wsOnlyLine, hall]

/-- Trailing-whitespace stripping of a text that ends with a non-blank
character followed by whitespace only. -/
theorem pyRStrip_append {Z ws : List Char} {c : Char}
    (hc : isPyWs c = false) (hws : ws.all isPyWs = true) :
    pyRStrip (Z ++ c :: ws) = Z ++ [c] := by
  unfold pyRStrip
  rw [List.reverse_append, List.reverse_cons, List.append_assoc,
    List.singleton_append,
    dropWhile_append_all (by simpa using hws) (c :: Z.reverse),
    List.dropWhile_cons_of_neg (by simp [hc]), List.reverse_cons,
    List.reverse_reverse]

/-- Stripping `W ++ m ++ "\n"` for a message whose last character is not
whitespace yields `W ++ m`. -/
theorem pyRStrip_msg_nl {W m : List Char} (hmne : m ≠ [])
    (hl : isPyWs (m.getLast hmne) = false) :
    pyRStrip (W ++ m ++ ['\n']) = W ++ m := by
  conv_lhs => rw [← List.dropLast_append_getLast hmne]
  have hshape : W ++ (m.dropLast ++ [m.getLast hmne]) ++ ['\n'] =
      (W ++ m.dropLast) ++ m.getLast hmne :: ['\n'] := by
    simp [List.append_assoc]
  rw [hshape, pyRStrip_append hl (by decide), List.append_assoc,
    ← List.concat_eq_append, List.concat_eq_append,
    List.dropLast_append_getLast hmne]

theorem noNl_append {x y : List Char} (hx : noNl x = true)
    (hy : noNl y = true) : noNl (x ++ y) = true := by
  simp only [noNl, List.all_append, Bool.and_eq_true]
  exact ⟨hx, hy⟩

theorem noNl_cons {c : Char} {x : List Char} (hc : ¬ c = '\n')
    (hx : noNl x = true) : noNl (c :: x) = true := by
  simp only [noNl, List.all_cons, Bool.and_eq_true]
  exact ⟨by simpa using hc, hx⟩

theorem sp12_blank : sp12.all isBlankWs = true := by decide

theorem takeWhile_sp12_cons {c : Char} (rest : List Char)
    (hc : isBlankWs c = false) :
    (sp12 ++ c :: rest).takeWhile isBlankWs = sp12 := by
  rw [takeWhile_append_all sp12_blank,
    List.takeWhile_cons_of_neg (by simp [hc])]
  simp

theorem dropWhile_sp12_cons {c : Char} (rest : List Char)
    (hc : isBlankWs c = false) :
    (sp12 ++ c :: rest).dropWhile isBlankWs = c :: rest := by
  rw [dropWhile_append_all sp12_blank,
    List.dropWhile_cons_of_neg (by simp [hc])]

theorem stripMargin_sp12 (rest : List Char) :
    stripMargin sp12 (sp12 ++ rest) = rest := by
  unfold stripMargin
  rw [if_pos (isPre_append sp12 rest)]
  exact List.drop_left sp12 rest

theorem joinNl_cons (l : List Char) (ls : List (List Char)) (h : ls ≠ []) :
    joinNl (l :: ls) = l ++ '\n' :: joinNl ls := by
  cases ls with
  | nil => exact absurd rfl h
  | cons a as => rfl

/-- Evaluation of `textwrap.dedent` on the changelog-stanza f-string: the
twelve-space margins disappear and the four-space tail collapses to a
final newline, for any newline-free date, version, release and message. -/
theorem dedent_rawStanza (d v r m : List Char)
    (hd : noNl d = true) (hv : noNl v = true) (hr : noNl r = true)
    (hm : noNl m = true) :
    dedent (rawStanza d v r m) =
      '%' :: ("changelog".data ++ '\n' :: '*' :: ' ' ::
        (d ++ ' ' :: (PACKAGER ++ (" - ".data ++ (v ++ '-' ::
          (r ++ '\n' :: '-' :: ' ' :: (m ++ ['\n']))))))) := by
  have hnl1 : noNl (sp12 ++ '%' :: "changelog".data) = true := by decide
  have hnl2 : noNl (sp12 ++ '*' :: ' ' :: (d ++ ' ' :: (PACKAGER ++
      (" - ".data ++ (v ++ '-' :: r))))) = true :=
    noNl_append (by decide) (noNl_cons (by decide) (noNl_cons (by decide)
      (noNl_append hd (noNl_cons (by decide) (noNl_append (by decide)
        (noNl_append (by decide)
          (noNl_append hv (noNl_cons (by decide) hr))))))))
  have hnl3 : noNl (sp12 ++ '-' :: ' ' :: m) = true :=
    noNl_append (by decide) (noNl_cons (by decide)
      (noNl_cons (by decide) hm))
  have hshape : rawStanza d v r m =
      (sp12 ++ '%' :: "changelog".data) ++
        '\n' :: ((sp12 ++ '*' :: ' ' :: (d ++ ' ' :: (PACKAGER ++
            (" - ".data ++ (v ++ '-' :: r))))) ++
          '\n' :: ((sp12 ++ '-' :: ' ' :: m) ++ '\n' :: sp4)) := by
    simp only [rawStanza, List.append_assoc, List.cons_append]
    rfl
  have hsplit : splitOnNl (rawStanza d v r m) =
      [sp12 ++ '%' :: "changelog".data,
       sp12 ++ '*' :: ' ' :: (d ++ ' ' :: (PACKAGER ++
         (" - ".data ++ (v ++ '-' :: r)))),
       sp12 ++ '-' :: ' ' :: m, sp4] := by
    rw [hshape, splitOnNl_append hnl1, splitOnNl_append hnl2,
      splitOnNl_append hnl3,
      splitOnNl_noNl (show noNl sp4 = true by decide)]
  have hw1 : wsOnlyLine (sp12 ++ '%' :: "changelog".data) = false :=
    wsOnlyLine_false_of_mem (c := '%') (by simp) (by decide)
  have hw2 : wsOnlyLine (sp12 ++ '*' :: ' ' :: (d ++ ' ' :: (PACKAGER ++
      (" - ".data ++ (v ++ '-' :: r))))) = false :=
    wsOnlyLine_false_of_mem (c := '*') (by simp) (by decide)
  have hw3 : wsOnlyLine (sp12 ++ '-' :: ' ' :: m) = false :=
    wsOnlyLine_false_of_mem (c := '-') (by simp) (by decide)
  have hnorm : normLines (splitOnNl (rawStanza d v r m)) =
      [sp12 ++ '%' :: "changelog".data,
       sp12 ++ '*' :: ' ' :: (d ++ ' ' :: (PACKAGER ++
         (" - ".data ++ (v ++ '-' :: r)))),
       sp12 ++ '-' :: ' ' :: m, []] := by
    rw [hsplit]
    unfold normLines
    simp only [List.map_cons, List.map_nil]
    rw [if_neg (by rw [hw1]; simp), if_neg (by rw [hw2]; simp),
      if_neg (by rw [hw3]; simp), if_pos (by decide)]
  have hind : lineIndents
      [sp12 ++ '%' :: "changelog".data,
       sp12 ++ '*' :: ' ' :: (d ++ ' ' :: (PACKAGER ++
         (" - ".data ++ (v ++ '-' :: r)))),
       sp12 ++ '-' :: ' ' :: m, []] = [sp12, sp12, sp12] := by
    unfold lineIndents
    rw [List.filter_cons_of_pos
        (by rw [dropWhile_sp12_cons _ (by decide)]; rfl),
      List.filter_cons_of_pos
        (by rw [dropWhile_sp12_cons _ (by decide)]; rfl),
      List.filter_cons_of_pos
        (by rw [dropWhile_sp12_cons _ (by decide)]; rfl),
      List.filter_cons_of_neg (by simp),
      List.filter_nil, List.map_cons, List.map_cons, List.map_cons,
      List.map_nil, takeWhile_sp12_cons _ (by decide),
      takeWhile_sp12_cons _ (by decide), takeWhile_sp12_cons _ (by decide)]
  have hmargin : marginOf
      [sp12 ++ '%' :: "changelog".data,
       sp12 ++ '*' :: ' ' :: (d ++ ' ' :: (PACKAGER ++
         (" - ".data ++ (v ++ '-' :: r)))),
       sp12 ++ '-' :: ' ' :: m, []] = sp12 := by
    unfold marginOf
    rw [hind]
    simp [lcp_self]
  unfold dedent
  rw [hnorm, hmargin]
  simp only [List.map_cons, List.map_nil, stripMargin_sp12,
    show stripMargin sp12 [] = [] by decide]
  rw [joinNl_cons _ _ (by simp), joinNl_cons _ _ (by simp),
    joinNl_cons _ _ (by simp), show joinNl [([] : List Char)] = [] from rfl]
  simp [List.append_assoc]

/-- Claim C6: with `--old-rpm` set, the prior package's changelog text (the
output of `rpm -q --changelog`) is appended after the newly built stanza,
separated from it by exactly one blank line (the stanza is right-stripped,
then `"\n\n"` and the old text follow); and spec preparation fails with the
query's error when that command exits non-zero. -/
theorem c6_old_changelog (env : Env) (a : Args) (t nm : List Char)
    (hread : env.specText = .ok t)
    (hold : truthy a.old_rpm = true)
    (hscan : scanNameLines none
      (splitOnNl (substitute t a.version a.release)) = .ok (some nm))
    (hpatch : a.patch.all env.patchExists = true)
    (hdt : noNl env.today = true) (hv : noNl a.version = true)
    (hr : noNl a.release = true)
    (hm : noNl (selectMsg a.message a.old_rpm a.version) = true)
    (hmne : selectMsg a.message a.old_rpm a.version ≠ [])
    (hmlast : isPyWs ((selectMsg a.message a.old_rpm a.version).getLast hmne)
      = false) :
    (∀ cl, env.rpmChangelog = .ok cl →
      (prepare_spec_file env a).toOption.map SpecResult.text =
        some (substitute t a.version a.release ++
          '\n' :: '%' :: ("changelog".data ++ '\n' :: '*' :: ' ' ::
            (env.today ++ ' ' :: (PACKAGER ++ (" - ".data ++
              (a.version ++ '-' :: (a.release ++ '\n' :: '-' :: ' ' ::
                (selectMsg a.message a.old_rpm a.version ++
                  '\n' :: '\n' :: cl))))))))) ∧
    (env.rpmChangelog = .error () →
      prepare_spec_file env a = .error .rpmQueryFail) := by
  constructor
  · intro cl hcl
    unfold prepare_spec_file
    rw [hread]
    simp only [hscan, hold, hcl, hpatch, if_true]
    rw [dedent_rawStanza _ _ _ _ hdt hv hr hm]
    have hre : substitute t a.version a.release ++
        '\n' :: '%' :: ("changelog".data ++ '\n' :: '*' :: ' ' ::
          (env.today ++ ' ' :: (PACKAGER ++ (" - ".data ++
            (a.version ++ '-' :: (a.release ++ '\n' :: '-' :: ' ' ::
              (selectMsg a.message a.old_rpm a.version ++ ['\n']))))))) =
        ((substitute t a.version a.release ++
          '\n' :: '%' :: ("changelog".data ++ '\n' :: '*' :: ' ' ::
            (env.today ++ ' ' :: (PACKAGER ++ (" - ".data ++
              (a.version ++ '-' :: (a.release ++
                '\n' :: '-' :: ' ' :: ([] : List Char)))))))) ++
          selectMsg a.message a.old_rpm a.version) ++ ['\n'] := by
      simp [List.append_assoc]
    rw [hre, pyRStrip_msg_nl hmne hmlast]
    simp [List.append_assoc]
    exact ⟨_, rfl, rfl⟩
  · intro hcl
    unfold prepare_spec_file
    rw [hread]
    simp only [hscan, hold, hcl, if_true]

def envC6 : Env :=
  { envC4 with
    specText := .ok "Name: obs-plug\nVersion: @VERSION@\n".data
    rpmChangelog := .ok "* old log".data }

def envC6fail : Env := { envC6 with rpmChangelog := .error () }

def argsC6 : Args :=
  { argsC4 with version := "1.2".data, old_rpm := some "old.rpm".data }

/-- Witness for C6: a concrete old-rpm run; the written text carries the
new stanza, one blank line, then the old changelog; and the same
configuration with a failing `rpm -q --changelog` aborts. -/
theorem c6_witness :
    (prepare_spec_file envC6 argsC6).toOption.map SpecResult.text =
      some ("Name: obs-plug\nVersion: 1.2\n\n%changelog\n* Mon Jan 01 2024 Norihiro Kamae <fedora-obs-studio-plugins@nagater.net> - 1.2-1\n- Update to 1.2\n\n* old log".data) ∧
    prepare_spec_file envC6fail argsC6 = .error .rpmQueryFail := by
  constructor
  · have h := (c6_old_changelog envC6 argsC6
      "Name: obs-plug\nVersion: @VERSION@\n".data "obs-plug".data rfl
      (by decide) rfl (by decide) (by decide) (by decide) (by decide)
      (by decide) (by decide) (by decide)).1 "* old log".data rfl
    exact h.trans rfl
  · exact (c6_old_changelog envC6fail argsC6
      "Name: obs-plug\nVersion: @VERSION@\n".data "obs-plug".data rfl
      (by decide) rfl (by decide) (by decide) (by decide) (by decide)
      (by decide) (by decide) (by decide)).2 rfl

/-! ## Claim C3: placeholder substitution (lines 32-33)

A spec template is decomposed into pieces: at-sign-free literal segments
and whole placeholder tokens.  `wfV` is the side condition under which the
sequential two-pass `str.replace` cannot match across piece boundaries. -/

inductive Piece where
  | lit (s : List Char)
  | ver
  | rel
deriving DecidableEq

/-- The template text a piece list denotes. -/
def render : List Piece → List Char
  | [] => []
  | .lit s :: ps => s ++ render ps
  | .ver :: ps => VTOK ++ render ps
  | .rel :: ps => RTOK ++ render ps

/-- Well-formedness for the version pass: every literal segment is free of
at-signs, and no release token is immediately followed by the text
`VERSION@` (which would let the version pattern match across the release
token's closing at-sign). -/
def wfV : List Piece → Bool
  | [] => true
  | .lit l :: ps => atFree l && wfV ps
  | .ver :: ps => wfV ps
  | .rel :: ps => !(isPre "VERSION@".data (render ps)) && wfV ps

/-- Replace every version placeholder piece by the literal version. -/
def substV (v : List Char) : List Piece → List Piece
  | [] => []
  | .lit s :: ps => .lit s :: substV v ps
  | .ver :: ps => .lit v :: substV v ps
  | .rel :: ps => .rel :: substV v ps

/-- Replace every release placeholder piece by the literal release. -/
def substR (r : List Char) : List Piece → List Piece
  | [] => []
  | .lit s :: ps => .lit s :: substR r ps
  | .ver :: ps => .ver :: substR r ps
  | .rel :: ps => .lit r :: substR r ps

/-- Pieces are literals and release tokens only, literals at-sign-free. -/
def onlyLitRel : List Piece → Bool
  | [] => true
  | .lit l :: ps => atFree l && onlyLitRel ps
  | .ver :: _ => false
  | .rel :: ps => onlyLitRel ps

theorem atFree_append {x y : List Char} :
    atFree (x ++ y) = (atFree x && atFree y) := by
  simp [atFree, List.all_append]

theorem replaceAll_VTOK_lit (v : List Char) {l : List Char}
    (hl : atFree l = true) (s : List Char) :
    replaceAll VTOK v (l ++ s) = l ++ replaceAll VTOK v s := by
  have hV : VTOK = '@' :: "VERSION@".data := rfl
  rw [hV]
  exact replaceAll_append_left v hl s

theorem replaceAll_RTOK_lit (r : List Char) {l : List Char}
    (hl : atFree l = true) (s : List Char) :
    replaceAll RTOK r (l ++ s) = l ++ replaceAll RTOK r s := by
  have hR : RTOK = '@' :: "RELEASE@".data := rfl
  rw [hR]
  exact replaceAll_append_left r hl s

/-- The version pass walks through a release token without matching,
provided the text after the token does not start with `VERSION@`. -/
theorem replaceAll_RTOK_skip (v : List Char) {s : List Char}
    (hs : isPre "VERSION@".data s = false) :
    replaceAll VTOK v (RTOK ++ s) = RTOK ++ replaceAll VTOK v s := by
  have e : RTOK ++ s =
      '@' :: 'R' :: 'E' :: 'L' :: 'E' :: 'A' :: 'S' :: 'E' :: '@' :: s :=
    rfl
  rw [e]
  rw [replaceAll_cons_not_pre _ _ (by simp [VTOK, isPre])]
  rw [replaceAll_cons_not_pre _ _ (by simp [VTOK, isPre])]
  rw [replaceAll_cons_not_pre _ _ (by simp [VTOK, isPre])]
  rw [replaceAll_cons_not_pre _ _ (by simp [VTOK, isPre])]
  rw [replaceAll_cons_not_pre _ _ (by simp [VTOK, isPre])]
  rw [replaceAll_cons_not_pre _ _ (by simp [VTOK, isPre])]
  rw [replaceAll_cons_not_pre _ _ (by simp [VTOK, isPre])]
  rw [replaceAll_cons_not_pre _ _ (by simp [VTOK, isPre])]
  rw [replaceAll_cons_not_pre _ _ (by simpa [VTOK, isPre] using hs)]
  rfl

/-- The version pass on a well-formed template replaces exactly the
version placeholder pieces. -/
theorem pass1 (v : List Char) : ∀ ps, wfV ps = true →
    replaceAll VTOK v (render ps) = render (substV v ps) := by
  intro ps
  induction ps with
  | nil => intro _; rfl
  | cons p ps ih =>
    intro hwf
    cases p with
    | lit s =>
      rw [show wfV (.lit s :: ps) = (atFree s && wfV ps) from rfl,
        Bool.and_eq_true] at hwf
      show replaceAll VTOK v (s ++ render ps) = s ++ render (substV v ps)
      rw [replaceAll_VTOK_lit v hwf.1, ih hwf.2]
    | ver =>
      show replaceAll VTOK v (VTOK ++ render ps) = v ++ render (substV v ps)
      rw [replaceAll_self_append v (by decide) _, ih hwf]
    | rel =>
      rw [show wfV (.rel :: ps) =
          (!(isPre "VERSION@".data (render ps)) && wfV ps) from rfl,
        Bool.and_eq_true] at hwf
      have hskip : isPre "VERSION@".data (render ps) = false := by
        simpa using hwf.1
      show replaceAll VTOK v (RTOK ++ render ps) =
        RTOK ++ render (substV v ps)
      rw [replaceAll_RTOK_skip v hskip, ih hwf.2]

/-- The release pass on a token-and-literal text replaces exactly the
release placeholder pieces; every release token is consumed whole at its
opening at-sign, so no cross-boundary match can occur. -/
theorem pass2 (r : List Char) : ∀ qs, onlyLitRel qs = true →
    replaceAll RTOK r (render qs) = render (substR r qs) := by
  intro qs
  induction qs with
  | nil => intro _; rfl
  | cons q qs ih =>
    intro hq
    cases q with
    | lit s =>
      rw [show onlyLitRel (.lit s :: qs) = (atFree s && onlyLitRel qs)
        from rfl, Bool.and_eq_true] at hq
      show replaceAll RTOK r (s ++ render qs) = s ++ render (substR r qs)
      rw [replaceAll_RTOK_lit r hq.1, ih hq.2]
    | ver => cases hq
    | rel =>
      show replaceAll RTOK r (RTOK ++ render qs) = r ++ render (substR r qs)
      rw [replaceAll_self_append r (by decide) _, ih hq]

theorem substV_onlyLitRel (v : List Char) (hv : atFree v = true) :
    ∀ ps, wfV ps = true → onlyLitRel (substV v ps) = true := by
  intro ps
  induction ps with
  | nil => intro _; rfl
  | cons p ps ih =>
    intro hwf
    cases p with
    | lit s =>
      rw [show wfV (.lit s :: ps) = (atFree s && wfV ps) from rfl,
        Bool.and_eq_true] at hwf
      show (atFree s && onlyLitRel (substV v ps)) = true
      rw [hwf.1, ih hwf.2]
      rfl
    | ver =>
      show (atFree v && onlyLitRel (substV v ps)) = true
      rw [hv, ih hwf]
      rfl
    | rel =>
      rw [show wfV (.rel :: ps) =
          (!(isPre "VERSION@".data (render ps)) && wfV ps) from rfl,
        Bool.and_eq_true] at hwf
      exact ih hwf.2

theorem render_substR_atFree (r : List Char) (hr : atFree r = true) :
    ∀ qs, onlyLitRel qs = true → atFree (render (substR r qs)) = true := by
  intro qs
  induction qs with
  | nil => intro _; rfl
  | cons q qs ih =>
    intro hq
    cases q with
    | lit s =>
      rw [show onlyLitRel (.lit s :: qs) = (atFree s && onlyLitRel qs)
        from rfl, Bool.and_eq_true] at hq
      show atFree (s ++ render (substR r qs)) = true
      rw [atFree_append, hq.1, ih hq.2]
      rfl
    | ver => cases hq
    | rel =>
      show atFree (r ++ render (substR r qs)) = true
      rw [atFree_append, hr, ih hq]
      rfl

/-- A pattern that starts with an at-sign never occurs in at-sign-free
text. -/
theorem hasOcc_atTok_false {pt : List Char} :
    ∀ {s : List Char}, atFree s = true → hasOcc ('@' :: pt) s = false := by
  intro s
  induction s with
  | nil => intro _; rfl
  | cons c cs ih =>
    intro hs
    simp only [atFree, List.all_cons, Bool.and_eq_true,
      Bool.not_eq_eq_eq_not, Bool.not_true, decide_eq_false_iff_not] at hs
    have hpre : isPre ('@' :: pt) (c :: cs) = false := by
      simp only [isPre, Bool.and_eq_false_iff]
      left
      simpa using fun h => hs.1 h.symm
    simp only [hasOcc, hpre, Bool.false_or]
    exact ih (by simp [atFree, hs.2])

/-- Claim C3 counterexample: a template containing both placeholder tokens
for which, with version `''` and release `1`, the substituted output still
contains the version placeholder token — the first replace pass splices
the surrounding text into a new `@VERSION@` occurrence, which the second
pass does not touch. -/
theorem c3_counterexample :
    hasOcc VTOK "@VER@VERSION@SION@ @RELEASE@".data = true ∧
    hasOcc RTOK "@VER@VERSION@SION@ @RELEASE@".data = true ∧
    substitute "@VER@VERSION@SION@ @RELEASE@".data [] "1".data =
      "@VERSION@ 1".data ∧
    hasOcc VTOK
      (substitute "@VER@VERSION@SION@ @RELEASE@".data [] "1".data) =
      true := by
  exact ⟨by decide, by decide, by decide, by decide⟩

/-- Claim C3 (amended): for a template decomposing into at-sign-free
literal segments and whole placeholder tokens, where no release token is
immediately followed by the text `VERSION@`, and for version and release
strings free of at-signs, the substituted output is exactly the template
with the version and release strings in the places the placeholder pieces
occupied, and it contains zero occurrences of either placeholder token. -/
theorem c3_substitution (ps : List Piece) (v r : List Char)
    (hwf : wfV ps = true) (hv : atFree v = true) (hr : atFree r = true)
    (_hver : Piece.ver ∈ ps) (_hrel : Piece.rel ∈ ps) :
    substitute (render ps) v r = render (substR r (substV v ps)) ∧
    hasOcc VTOK (substitute (render ps) v r) = false ∧
    hasOcc RTOK (substitute (render ps) v r) = false := by
  have h1 : substitute (render ps) v r = render (substR r (substV v ps)) := by
    unfold substitute
    rw [pass1 v ps hwf, pass2 r _ (substV_onlyLitRel v hv ps hwf)]
  have hfree : atFree (render (substR r (substV v ps))) = true :=
    render_substR_atFree r hr _ (substV_onlyLitRel v hv ps hwf)
  refine ⟨h1, ?_, ?_⟩
  · rw [h1, show VTOK = '@' :: "VERSION@".data from rfl]
    exact hasOcc_atTok_false hfree
  · rw [h1, show RTOK = '@' :: "RELEASE@".data from rfl]
    exact hasOcc_atTok_false hfree

/-- The decomposition of a small realistic spec template. -/
def psW : List Piece :=
  [.lit "Name: plug\nVersion: ".data, .ver, .lit "\nRelease: ".data,
   .rel, .lit "\nSummary: demo\n".data]

/-- Witness for C3 at a concrete template, version `1.2`, release `1`. -/
theorem c3_witness :
    substitute (render psW) "1.2".data "1".data =
      render (substR "1".data (substV "1.2".data psW)) ∧
    hasOcc VTOK (substitute (render psW) "1.2".data "1".data) = false ∧
    hasOcc RTOK (substitute (render psW) "1.2".data "1".data) = false :=
  c3_substitution psW "1.2".data "1".data (by decide) (by decide)
    (by decide) (by decide) (by decide)

end MakeRpm
